import Mathlib

/-!
Verification development for the `ronimis` gym-statistics server
(`server.go`).  The definitions below are a shallow embedding of the
data-handling core of that program:

* the calendar arithmetic of Go's `time` package (proleptic Gregorian
  calendar, civil-days conversion),
* the three `time.Parse` layouts used by the program
  (`"2006-01-02"`, `"20060102"`, `"2006-01-02 15:04:05"`),
* `strconv.Atoi`,
* `findLatestCSV`, `findCSVFilesInRange`, `processCSVFile`,
  `convertCSVFilesToJSON` and the JSON snapshot rendering.

Modelling conventions:

* Files are values: a CSV file is the list of records the `csv.Reader`
  yields (`none` marks a record on which `Read` returned a non-EOF
  error, which the program skips).  The file system is a partial map
  from file name to contents (`none` models an `os.Open` failure).
* Go strings are modelled as Lean `String`s and byte indexing as
  indexing into `String.data`; the program only slices ASCII file
  names, where the two coincide.
* A Go `map` plus `range` iteration is modelled as an insertion-ordered
  association list (`Acc`) plus an explicit iteration order parameter
  `order`; the Go runtime guarantees only that `range` enumerates each
  key exactly once, so theorems quantify over every permutation of the
  key list.
* `sort.Slice(s, less)` is modelled by a deterministic comparison sort
  (`List.insertionSort` with the reflexive closure of `less`).  Note
  that `sort.Slice` is documented as *not* guaranteed stable, so no
  stability property of the model is transferred to the program.
* Time zones are modelled as a function from an absolute instant
  (seconds on the civil timeline) to a UTC offset in seconds; both
  `Europe/Tallinn` and the `FixedZone("EET", 7200)` fallback are
  instances.  The reconstruction `time.Date(..., roundedMinute, 0, 0,
  tz)` in the source re-resolves the rounded wall-clock time in the
  zone; because the rounding only decreases the minute within the same
  hour and `Europe/Tallinn` (like every fixed zone) changes offset only
  on whole-hour boundaries, the resolved offset equals the offset used
  for the conversion, which is how the model renders it.
-/

namespace Ronimis

/-! ## Calendar arithmetic (Go `time` package model) -/

def isLeapYear (y : Nat) : Bool :=
  y % 4 == 0 && (y % 100 != 0 || y % 400 == 0)

def daysInMonth (y m : Nat) : Nat :=
  if m == 2 then (if isLeapYear y then 29 else 28)
  else if m == 4 || m == 6 || m == 9 || m == 11 then 30
  else 31

structure Date where
  year : Nat
  month : Nat
  day : Nat
deriving DecidableEq

structure DateTime where
  year : Nat
  month : Nat
  day : Nat
  hour : Nat
  minute : Nat
  second : Nat
deriving DecidableEq

/-- Civil day number of a calendar date (days since 1970-01-01,
Hinnant's `days_from_civil` algorithm, written with floor division).
This is the day count underlying Go `time.Time` instant comparison. -/
def daysFromCivil (y m d : Nat) : Int :=
  let yi : Int := if m ≤ 2 then (y : Int) - 1 else (y : Int)
  let era : Int := Int.fdiv yi 400
  let yoe : Int := yi - era * 400
  let mp : Int := ((m : Int) + 9) % 12
  let doy : Int := Int.fdiv (153 * mp + 2) 5 + (d : Int) - 1
  let doe : Int := yoe * 365 + Int.fdiv yoe 4 - Int.fdiv yoe 100 + doy
  era * 146097 + doe - 719468

/-- Inverse of `daysFromCivil` (Hinnant's `civil_from_days`); the
model is used only on day numbers of year-0-or-later dates, where the
final `toNat` coercions are exact. -/
def civilFromDays (z0 : Int) : Nat × Nat × Nat :=
  let z := z0 + 719468
  let era := Int.fdiv z 146097
  let doe := z - era * 146097
  let yoe := Int.fdiv (doe - Int.fdiv doe 1460 + Int.fdiv doe 36524 - Int.fdiv doe 146096) 365
  let y := yoe + era * 400
  let doy := doe - (365 * yoe + Int.fdiv yoe 4 - Int.fdiv yoe 100)
  let mp := Int.fdiv (5 * doy + 2) 153
  let d := doy - Int.fdiv (153 * mp + 2) 5 + 1
  let m := if mp < 10 then mp + 3 else mp - 9
  ((if m ≤ 2 then y + 1 else y).toNat, m.toNat, d.toNat)

def dateDays (d : Date) : Int :=
  daysFromCivil d.year d.month d.day

/-- Absolute instant (seconds on the civil timeline) of a wall-clock
datetime, as used for Go `time.Time` arithmetic and comparison. -/
def dtToSecs (t : DateTime) : Int :=
  daysFromCivil t.year t.month t.day * 86400
    + (t.hour : Int) * 3600 + (t.minute : Int) * 60 + (t.second : Int)

def dtOfSecs (z : Int) : DateTime :=
  let days := Int.fdiv z 86400
  let rem := (z - days * 86400).toNat
  let c := civilFromDays days
  ⟨c.1, c.2.1, c.2.2, rem / 3600, rem % 3600 / 60, rem % 60⟩

/-! ## Parsing (`time.Parse` layouts and `strconv.Atoi`) -/

def digitVal (c : Char) : Nat := c.toNat - 48

/-- Layout `"2006-01-02"`: four fixed-width numeric fields with `-`
separators, followed by Go's range validation of month and day. -/
def parseDate (s : String) : Option Date :=
  match s.data with
  | [y1, y2, y3, y4, '-', o1, o2, '-', d1, d2] =>
    if ([y1, y2, y3, y4, o1, o2, d1, d2].all Char.isDigit) then
      let y := digitVal y1 * 1000 + digitVal y2 * 100 + digitVal y3 * 10 + digitVal y4
      let mo := digitVal o1 * 10 + digitVal o2
      let d := digitVal d1 * 10 + digitVal d2
      if 1 ≤ mo ∧ mo ≤ 12 ∧ 1 ≤ d ∧ d ≤ daysInMonth y mo then some ⟨y, mo, d⟩ else none
    else none
  | _ => none

/-- Layout `"20060102"`, applied by `findCSVFilesInRange` to the eight
bytes embedded in a file name. -/
def parseYYYYMMDD (cs : List Char) : Option Date :=
  match cs with
  | [y1, y2, y3, y4, o1, o2, d1, d2] =>
    if ([y1, y2, y3, y4, o1, o2, d1, d2].all Char.isDigit) then
      let y := digitVal y1 * 1000 + digitVal y2 * 100 + digitVal y3 * 10 + digitVal y4
      let mo := digitVal o1 * 10 + digitVal o2
      let d := digitVal d1 * 10 + digitVal d2
      if 1 ≤ mo ∧ mo ≤ 12 ∧ 1 ≤ d ∧ d ≤ daysInMonth y mo then some ⟨y, mo, d⟩ else none
    else none
  | _ => none

/-- Clock part of layout `"15:04:05"`: in Go's parser the hour field
`15` accepts one or two digits while minute and second are fixed
two-digit fields. -/
def parseClock : List Char → Option (Nat × Nat × Nat)
  | [h1, ':', n1, n2, ':', e1, e2] =>
    if ([h1, n1, n2, e1, e2].all Char.isDigit) then
      some (digitVal h1, digitVal n1 * 10 + digitVal n2, digitVal e1 * 10 + digitVal e2)
    else none
  | [h1, h2, ':', n1, n2, ':', e1, e2] =>
    if ([h1, h2, n1, n2, e1, e2].all Char.isDigit) then
      some (digitVal h1 * 10 + digitVal h2, digitVal n1 * 10 + digitVal n2,
            digitVal e1 * 10 + digitVal e2)
    else none
  | _ => none

/-- Layout `"2006-01-02 15:04:05"` with Go's range validation. -/
def parseDateTime (s : String) : Option DateTime :=
  match s.data with
  | y1 :: y2 :: y3 :: y4 :: '-' :: o1 :: o2 :: '-' :: d1 :: d2 :: ' ' :: rest =>
    if ([y1, y2, y3, y4, o1, o2, d1, d2].all Char.isDigit) then
      match parseClock rest with
      | some (h, mi, se) =>
        let y := digitVal y1 * 1000 + digitVal y2 * 100 + digitVal y3 * 10 + digitVal y4
        let mo := digitVal o1 * 10 + digitVal o2
        let d := digitVal d1 * 10 + digitVal d2
        if 1 ≤ mo ∧ mo ≤ 12 ∧ 1 ≤ d ∧ d ≤ daysInMonth y mo ∧ h ≤ 23 ∧ mi ≤ 59 ∧ se ≤ 59 then
          some ⟨y, mo, d, h, mi, se⟩
        else none
      | none => none
    else none
  | _ => none

def atoiDigits (cs : List Char) (neg : Bool) : Option Int :=
  if cs.isEmpty then none
  else if cs.all Char.isDigit then
    let n : Nat := cs.foldl (fun a c => a * 10 + digitVal c) 0
    if neg then
      if n ≤ 9223372036854775808 then some (-(n : Int)) else none
    else
      if n ≤ 9223372036854775807 then some ((n : Int)) else none
  else none

/-- Model of `strconv.Atoi` on a 64-bit platform: optional sign, a
nonempty run of decimal digits, and an `int64` range check (out of
range is an error, hence `none`). -/
def strconvAtoi (s : String) : Option Int :=
  match s.data with
  | '+' :: cs => atoiDigits cs false
  | '-' :: cs => atoiDigits cs true
  | cs => atoiDigits cs false

/-! ## Go string comparison and ISO rendering -/

/-- Lexicographic strict order on character lists; Go compares strings
byte-wise, which agrees with this character-wise comparison on the
ASCII strings the program sorts. -/
def lexLt : List Char → List Char → Bool
  | [], [] => false
  | [], _ :: _ => true
  | _ :: _, [] => false
  | a :: as, b :: bs =>
    if a.toNat < b.toNat then true
    else if b.toNat < a.toNat then false
    else lexLt as bs

def goStrLt (s t : String) : Bool := lexLt s.data t.data

/-- Reflexive closure of Go's `<` on strings; a slice sorted by
`sort.Slice(s, less)` is nondecreasing in this sense. -/
def goStrLe (s t : String) : Bool := !(goStrLt t s)

def digitChar (n : Nat) : Char := Char.ofNat (48 + n % 10)

def pad2 (n : Nat) : List Char := [digitChar (n / 10), digitChar n]

def pad4 (n : Nat) : List Char :=
  [digitChar (n / 1000), digitChar (n / 100), digitChar (n / 10), digitChar n]

/-- Rendering of layout `"2006-01-02T15:04:05-07:00"` for a wall-clock
time and a zone offset in seconds. -/
def renderISO (t : DateTime) (off : Int) : String :=
  let a := off.natAbs
  String.mk (pad4 t.year ++ '-' :: pad2 t.month ++ '-' :: pad2 t.day
    ++ 'T' :: pad2 t.hour ++ ':' :: pad2 t.minute ++ ':' :: pad2 t.second
    ++ (if off < 0 then '-' else '+') :: pad2 (a / 3600) ++ ':' :: pad2 (a % 3600 / 60))

/-! ## Timestamp normalisation (`processCSVFile` lines 202-229) -/

/-- Offset function of the `FixedZone("EET", 2*3600)` fallback. -/
def fixedEET : Int → Int := fun _ => 7200

/-- Wall-clock time of a parsed UTC timestamp in the zone described by
the offset function `tz`. -/
def localTimeOf (tz : Int → Int) (t : DateTime) : DateTime :=
  dtOfSecs (dtToSecs t + tz (dtToSecs t))

/-- Rounding of the local time down to a 2-minute boundary:
`roundedMinute := (minute / 2) * 2`, seconds zeroed. -/
def bucket2min (lt : DateTime) : DateTime :=
  { lt with minute := lt.minute / 2 * 2, second := 0 }

/-- ISO string the program stores as `x` for one parsed timestamp. -/
def normalizeTimestamp (tz : Int → Int) (t : DateTime) : String :=
  renderISO (bucket2min (localTimeOf tz t)) (tz (dtToSecs t))

/-! ## Data model of the aggregation -/

structure DataPoint where
  x : String
  y : Int
deriving DecidableEq

structure Dataset where
  label : String
  data : List DataPoint
deriving DecidableEq

/-- Contents of one CSV file as the sequence of results of
`csv.Reader.Read` before EOF; `none` is a record-level read error
(skipped by the program for body rows, fatal for the header). -/
structure CSVFile where
  rows : List (Option (List String))
deriving DecidableEq

inductive Err where
  | openFailed
  | headerFailed
  | missingColumns
  | noFilesFound
  | invalidFromDate
  | invalidToDate
  | processFailed (file : String) (e : Err)
deriving DecidableEq

/-- Column index chosen by the header loop; the `switch` overwrites on
every match, so the last occurrence of a header name wins. -/
def findColIdx (name : String) (headers : List String) : Option Nat :=
  (headers.foldl
    (fun (st : Option Nat × Nat) h =>
      (if h = name then some st.2 else st.1, st.2 + 1))
    (none, 0)).1

structure Cols where
  tsIdx : Nat
  locIdx : Nat
  ucIdx : Nat
  stIdx : Nat
deriving DecidableEq

def max2 (a b : Nat) : Nat := if a > b then a else b

def maxReqIdx (c : Cols) : Nat :=
  max2 (max2 c.tsIdx c.locIdx) (max2 c.ucIdx c.stIdx)

/-- Accumulator `dataByLocation`: a Go map modelled as an
insertion-ordered association list. -/
abbrev Acc := List (String × List DataPoint)

def accAppend (acc : Acc) (l : String) (p : DataPoint) : Acc :=
  match acc with
  | [] => [(l, [p])]
  | (k, ps) :: rest =>
    if k = l then (k, ps ++ [p]) :: rest else (k, ps) :: accAppend rest l p

def lookupD (acc : Acc) (l : String) : List DataPoint :=
  match acc with
  | [] => []
  | (k, ps) :: rest => if k = l then ps else lookupD rest l

def accKeys (acc : Acc) : List String := acc.map Prod.fst

/-- Indexing `record[i]` of a Go slice, total with a default; the
program guards every access with the `maxIdx` length check, so the
default is never read on the paths the theorems speak about. -/
def fieldD (rec : List String) (i : Nat) : String := (rec.drop i).headD ""

/-- Body of the row loop of `processCSVFile` for one successfully read
record (length guard, status filter, timestamp parse, normalisation,
user-count parse, append). -/
def processRecord (tz : Int → Int) (c : Cols) (acc : Acc) (rec : List String) : Acc :=
  if rec.length ≤ maxReqIdx c then acc
  else if fieldD rec c.stIdx ≠ "success" then acc
  else
    match parseDateTime (fieldD rec c.tsIdx) with
    | none => acc
    | some t =>
      match strconvAtoi (fieldD rec c.ucIdx) with
      | none => acc
      | some y => accAppend acc (fieldD rec c.locIdx) ⟨normalizeTimestamp tz t, y⟩

def processRow (tz : Int → Int) (c : Cols) (acc : Acc) : Option (List String) → Acc
  | none => acc
  | some rec => processRecord tz c acc rec

/-- Model of `processCSVFile`: open the file, read the header, locate
the four required columns, then fold the tolerant row loop over the
remaining records. -/
def processCSVFile (tz : Int → Int) (content : Option CSVFile) (acc : Acc) :
    Except Err Acc :=
  match content with
  | none => .error .openFailed
  | some file =>
    match file.rows with
    | [] => .error .headerFailed
    | none :: _ => .error .headerFailed
    | some headers :: rest =>
      match findColIdx "timestamp" headers, findColIdx "location_name" headers,
            findColIdx "user_count" headers, findColIdx "status" headers with
      | some tsI, some locI, some ucI, some stI =>
        .ok (rest.foldl (processRow tz ⟨tsI, locI, ucI, stI⟩) acc)
      | _, _, _, _ => .error .missingColumns

/-- Dataset comparison relations for the two `sort.Slice` calls. -/
def dpLe (p q : DataPoint) : Prop := goStrLe p.x q.x = true

def dsLe (a b : Dataset) : Prop := goStrLe a.label b.label = true

instance : DecidableRel dpLe := fun _ _ => instDecidableEqBool _ _

instance : DecidableRel dsLe := fun _ _ => instDecidableEqBool _ _

/-- Model of `sort.Slice(dataPoints, func(i, j) ... X < X)`: a
deterministic comparison sort producing a list nondecreasing in `x`. -/
def sortDataPoints (ps : List DataPoint) : List DataPoint :=
  ps.insertionSort dpLe

/-- Model of `sort.Slice(datasets, func(i, j) ... Label < Label)`. -/
def sortDatasets (ds : List Dataset) : List Dataset :=
  ds.insertionSort dsLe

/-- Accumulation phase of `convertCSVFilesToJSON`: process each file in
order into the shared accumulator, aborting on the first failure with
the wrapped error. -/
def accumFiles (tz : Int → Int) (fsys : String → Option CSVFile) (acc : Acc) :
    List String → Except Err Acc
  | [] => .ok acc
  | f :: rest =>
    match processCSVFile tz (fsys f) acc with
    | .error e => .error (.processFailed f e)
    | .ok acc' => accumFiles tz fsys acc' rest

/-- Model of `convertCSVFilesToJSON`.  `order` is the order in which
the Go runtime happens to enumerate the keys of the `dataByLocation`
map; the runtime guarantees only that it is some permutation of the
key set, so it is an explicit parameter here. -/
def convertCSVFilesToJSON (tz : Int → Int) (fsys : String → Option CSVFile)
    (order : List String) (files : List String) : Except Err (List Dataset) :=
  match accumFiles tz fsys [] files with
  | .error e => .error e
  | .ok acc =>
    .ok (sortDatasets (order.map (fun l => ⟨l, sortDataPoints (lookupD acc l)⟩)))

/-! ## Log file locator -/

/-- Model of `findLatestCSV`: `files` is the glob result and `stat`
gives the modification time of a file (`none` models an `os.Stat`
failure, which the loop skips with `continue`).  The zero `time.Time`
initial value of `latestTime` is modelled as instant `0`, with real
modification times positive. -/
def findLatestCSV (files : List String) (stat : String → Option Int) :
    Except Err String :=
  if files.isEmpty then .error .noFilesFound
  else
    .ok (files.foldl
      (fun (st : String × Int) f =>
        match stat f with
        | none => st
        | some t => if st.2 < t then (f, t) else st)
      ("", 0)).1

/-- Model of `filepath.Base` restricted to the names this program
globs (no trailing separator): the suffix after the last `/`. -/
def baseName (s : String) : String :=
  String.mk ((s.data.reverse.takeWhile (fun c => c ≠ '/')).reverse)

/-- Date extraction of `findCSVFilesInRange`: names shorter than 20
bytes are skipped, otherwise bytes `[10:18]` of the base name are
parsed with layout `"20060102"`. -/
def extractFileDate (file : String) : Option Date :=
  let b := baseName file
  if b.data.length < 20 then none
  else parseYYYYMMDD ((b.data.drop 10).take 8)

/-- Inclusion test of `findCSVFilesInRange` on an extracted file date:
`(fileDate.Equal(from) || fileDate.After(from)) &&
 (fileDate.Equal(to) || fileDate.Before(to.AddDate(0,0,1)))`,
on date-granularity instants, i.e. civil day numbers. -/
def inRange (fromD toD fd : Date) : Bool :=
  (dateDays fd == dateDays fromD || dateDays fromD < dateDays fd) &&
  (dateDays fd == dateDays toD || dateDays fd < dateDays toD + 1)

/-- Model of `findCSVFilesInRange`: `files` is the glob result. -/
def findCSVFilesInRange (files : List String) (fromDate toDate : String) :
    Except Err (List String) :=
  if files.isEmpty then .error .noFilesFound
  else
    match parseDate fromDate with
    | none => .error .invalidFromDate
    | some fromD =>
      match parseDate toDate with
      | none => .error .invalidToDate
      | some toD =>
        .ok (files.filter (fun file =>
          match extractFileDate file with
          | none => false
          | some fd => inRange fromD toD fd))

/-! ## Snapshot rendering (`json.Encoder` with two-space indent) -/

def hexDigit (n : Nat) : Char :=
  if n < 10 then digitChar n else Char.ofNat (87 + n % 16)

/-- Character escaping of `encoding/json` with the default HTML
escaping (`<`, `>`, `&` become `\u00..`). -/
def jsonEscapeChar (c : Char) : List Char :=
  if c = '"' then ['\\', '"']
  else if c = '\\' then ['\\', '\\']
  else if c = '\n' then ['\\', 'n']
  else if c = '\r' then ['\\', 'r']
  else if c = '\t' then ['\\', 't']
  else if c.toNat < 32 ∨ c = '<' ∨ c = '>' ∨ c = '&' then
    ['\\', 'u', '0', '0', hexDigit (c.toNat / 16), hexDigit (c.toNat % 16)]
  else if c.toNat = 8232 ∨ c.toNat = 8233 then
    ['\\', 'u', '2', '0', '2', hexDigit (c.toNat % 16)]
  else [c]

def jsonString (s : String) : String :=
  String.mk ('"' :: s.data.flatMap jsonEscapeChar ++ ['"'])

def renderDataPoint (p : DataPoint) : String :=
  "      \x7b\n        \"x\": " ++ jsonString p.x
    ++ ",\n        \"y\": " ++ toString p.y ++ "\n      \x7d"

def renderDataList (ps : List DataPoint) : String :=
  match ps with
  | [] => "[]"
  | _ => "[\n" ++ String.intercalate ",\n" (ps.map renderDataPoint) ++ "\n    ]"

def renderDataset (d : Dataset) : String :=
  "  \x7b\n    \"label\": " ++ jsonString d.label
    ++ ",\n    \"data\": " ++ renderDataList d.data ++ "\n  \x7d"

/-- Byte output of `json.NewEncoder(..).SetIndent("", "  ").Encode` on
the dataset slice (a `nil` slice, produced when no location occurs,
encodes as `null`); `Encode` appends a newline. -/
def renderJSON (ds : List Dataset) : String :=
  match ds with
  | [] => "null\n"
  | _ => "[\n" ++ String.intercalate ",\n" (ds.map renderDataset) ++ "\n]\n"

/-! ## Derived descriptions of the converter used by the theorems -/

/-- Outcome of the row loop body on one successfully read record:
`some (location, point)` when the record survives every filter. -/
def rowDP (tz : Int → Int) (c : Cols) (rec' : List String) :
    Option (String × DataPoint) :=
  if rec'.length ≤ maxReqIdx c then none
  else if fieldD rec' c.stIdx ≠ "success" then none
  else
    match parseDateTime (fieldD rec' c.tsIdx) with
    | none => none
    | some t =>
      match strconvAtoi (fieldD rec' c.ucIdx) with
      | none => none
      | some y => some (fieldD rec' c.locIdx, ⟨normalizeTimestamp tz t, y⟩)

def rowQual (tz : Int → Int) (c : Cols) : Option (List String) → Option (String × DataPoint)
  | none => none
  | some rec' => rowDP tz c rec'

/-- Location/point pairs contributed by the body rows of one file, in
row order. -/
def qualRows (tz : Int → Int) (c : Cols) (rows : List (Option (List String))) :
    List (String × DataPoint) :=
  rows.filterMap (rowQual tz c)

/-- Column indices `processCSVFile` resolves from the header row. -/
def fileCols (file : CSVFile) : Option Cols :=
  match file.rows with
  | some headers :: _ =>
    match findColIdx "timestamp" headers, findColIdx "location_name" headers,
          findColIdx "user_count" headers, findColIdx "status" headers with
    | some tsI, some locI, some ucI, some stI => some ⟨tsI, locI, ucI, stI⟩
    | _, _, _, _ => none
  | _ => none

def fileBody (file : CSVFile) : List (Option (List String)) :=
  match file.rows with
  | _ :: rest => rest
  | [] => []

def fileQual (tz : Int → Int) (file : CSVFile) : List (String × DataPoint) :=
  match fileCols file with
  | some c => qualRows tz c (fileBody file)
  | none => []

def fsysQual (tz : Int → Int) (fsys : String → Option CSVFile) (f : String) :
    List (String × DataPoint) :=
  match fsys f with
  | none => []
  | some file => fileQual tz file

/-- Location/point pairs of every qualifying row of every selected
file, in file-then-row order. -/
def allQual (tz : Int → Int) (fsys : String → Option CSVFile)
    (files : List String) : List (String × DataPoint) :=
  files.flatMap (fsysQual tz fsys)

def accMulti (acc : Acc) (prs : List (String × DataPoint)) : Acc :=
  prs.foldl (fun a pr => accAppend a pr.1 pr.2) acc

/-- Key set of the accumulator a successful run builds, in insertion
order; Go's map iteration visits some permutation of this list. -/
def qualLocations (tz : Int → Int) (fsys : String → Option CSVFile)
    (files : List String) : List String :=
  accKeys (accMulti [] (allQual tz fsys files))

/-- Failure condition of `processCSVFile`, which depends only on the
file (open failure, missing or unreadable header, missing required
columns), never on the accumulator. -/
def fileBroken (content : Option CSVFile) : Bool :=
  match content with
  | none => true
  | some file =>
    match file.rows with
    | [] => true
    | none :: _ => true
    | some headers :: _ =>
      !((findColIdx "timestamp" headers).isSome &&
        (findColIdx "location_name" headers).isSome &&
        (findColIdx "user_count" headers).isSome &&
        (findColIdx "status" headers).isSome)

/-- Canonical daily log file name `gym-stats-YYYYMMDD.csv`. -/
def csvName (y m d : Nat) : String :=
  String.mk (['g', 'y', 'm', '-', 's', 't', 'a', 't', 's', '-']
    ++ pad4 y ++ pad2 m ++ pad2 d ++ ['.', 'c', 's', 'v'])

/-! ## Concrete inputs used by the witnesses -/

def demoRec : List String :=
  ["2024-01-15 12:03:47", "1", "Hipodroom", "5", "success", "ok"]

def demoFile : CSVFile :=
  ⟨[some ["timestamp", "location_id", "location_name", "user_count", "status", "response"],
    some demoRec,
    some ["2024-01-15 12:05:47", "3", "T1", "7", "success", "ok"],
    some ["2024-01-15 12:07:00", "1", "Hipodroom", "6", "error", "x"],
    some ["2024-01-15 12:01:00", "1", "Hipodroom", "parse_error", "success", "x"]]⟩

def demoFS : String → Option CSVFile :=
  fun n => if n = "gym-stats-20240115.csv" then some demoFile else none

def demoFiles : List String := ["gym-stats-20240115.csv"]

/-- File whose header lacks two of the four required columns. -/
def brokenFile : CSVFile := ⟨[some ["timestamp", "location_name"]]⟩

def demoFS2 : String → Option CSVFile :=
  fun n =>
    if n = "gym-stats-20240115.csv" then some demoFile
    else if n = "gym-stats-20240116.csv" then some brokenFile
    else none

def demoFiles2 : List String :=
  ["gym-stats-20240115.csv", "gym-stats-20240116.csv"]

def demoRangeFiles : List String :=
  ["gym-stats-20240110.csv", "gym-stats-20240111.csv", "gym-stats-20240112.csv",
   "gym-stats-20240113.csv", "gym-stats-20240114.csv", "gym-stats-20240115.csv"]

/-! ## Order properties of the Go string comparison -/

theorem char_eq_of_toNat_eq {x y : Char} (h : x.toNat = y.toNat) : x = y :=
  Char.eq_of_val_eq (UInt32.ext h)

theorem lexLt_asymm : ∀ (a b : List Char), lexLt a b = true → lexLt b a = false
  | [], [] => by simp [lexLt]
  | [], _ :: _ => by simp [lexLt]
  | _ :: _, [] => by simp [lexLt]
  | x :: xs, y :: ys => by
    simp only [lexLt]
    intro h
    by_cases h1 : x.toNat < y.toNat
    · have h2 : ¬ y.toNat < x.toNat := by omega
      simp [if_neg h2, if_pos h1]
    · by_cases h2 : y.toNat < x.toNat
      · simp [if_neg h1, if_pos h2] at h
      · simp only [if_neg h1, if_neg h2] at h
        simp [if_neg h1, if_neg h2, lexLt_asymm xs ys h]

theorem lexLt_eq : ∀ (a b : List Char), lexLt a b = false → lexLt b a = false → a = b
  | [], [] => fun _ _ => rfl
  | [], _ :: _ => by simp [lexLt]
  | _ :: _, [] => by intro _ h; simp [lexLt] at h
  | x :: xs, y :: ys => by
    simp only [lexLt]
    intro h1 h2
    by_cases ha : x.toNat < y.toNat
    · simp [if_pos ha] at h1
    · by_cases hb : y.toNat < x.toNat
      · simp [if_pos hb] at h2
      · have hxy : x = y := char_eq_of_toNat_eq (by omega)
        simp only [if_neg ha, if_neg hb] at h1
        simp only [if_neg ha, if_neg hb] at h2
        rw [hxy, lexLt_eq xs ys h1 h2]

theorem lexLt_trans : ∀ (a b c : List Char),
    lexLt a b = true → lexLt b c = true → lexLt a c = true
  | [], b, [] => by
    intro h1 h2
    cases b with
    | nil => simp [lexLt] at h1
    | cons y ys => simp [lexLt] at h2
  | [], _, _ :: _ => by intro _ _; simp [lexLt]
  | _ :: _, b, [] => by
    intro h1 h2
    cases b with
    | nil => simp [lexLt] at h1
    | cons y ys => simp [lexLt] at h2
  | x :: xs, b, z :: zs => by
    intro h1 h2
    cases b with
    | nil => simp [lexLt] at h1
    | cons y ys =>
      simp only [lexLt] at h1 h2 ⊢
      by_cases hxy : x.toNat < y.toNat
      · by_cases hyz : y.toNat < z.toNat
        · have : x.toNat < z.toNat := by omega
          simp [if_pos this]
        · by_cases hzy : z.toNat < y.toNat
          · simp [if_neg hyz, if_pos hzy] at h2
          · have : x.toNat < z.toNat := by omega
            simp [if_pos this]
      · by_cases hyx : y.toNat < x.toNat
        · simp [if_neg hxy, if_pos hyx] at h1
        · by_cases hyz : y.toNat < z.toNat
          · have : x.toNat < z.toNat := by omega
            simp [if_pos this]
          · by_cases hzy : z.toNat < y.toNat
            · simp [if_neg hyz, if_pos hzy] at h2
            · simp only [if_neg hxy, if_neg hyx] at h1
              simp only [if_neg hyz, if_neg hzy] at h2
              have hxz : ¬ x.toNat < z.toNat := by omega
              have hzx : ¬ z.toNat < x.toNat := by omega
              simp [if_neg hxz, if_neg hzx, lexLt_trans xs ys zs h1 h2]

theorem lexLt_irrefl (a : List Char) : lexLt a a = false := by
  cases h : lexLt a a
  · rfl
  · exact absurd (lexLt_asymm a a h) (by simp [h])

theorem goStrLe_trans {a b c : String} (h1 : goStrLe a b = true)
    (h2 : goStrLe b c = true) : goStrLe a c = true := by
  unfold goStrLe goStrLt at h1 h2 ⊢
  simp only [Bool.not_eq_true'] at h1 h2 ⊢
  cases hca : lexLt c.data a.data
  · rfl
  · exfalso
    cases hbc : lexLt b.data c.data
    · have hbceq : b.data = c.data := lexLt_eq _ _ hbc h2
      rw [← hbceq] at hca
      simp [hca] at h1
    · have hba := lexLt_trans _ _ _ hbc hca
      simp [hba] at h1

theorem goStrLe_total (a b : String) : (goStrLe a b || goStrLe b a) = true := by
  unfold goStrLe goStrLt
  cases h : lexLt b.data a.data
  · simp [h]
  · simp [lexLt_asymm _ _ h]

theorem goStrLe_antisymm {a b : String} (h1 : goStrLe a b = true)
    (h2 : goStrLe b a = true) : a = b := by
  unfold goStrLe goStrLt at h1 h2
  simp only [Bool.not_eq_true'] at h1 h2
  exact String.ext (lexLt_eq _ _ h2 h1)

theorem goStrLt_of_le_of_ne {a b : String} (h : goStrLe a b = true)
    (hne : a ≠ b) : goStrLt a b = true := by
  unfold goStrLe goStrLt at h
  simp only [Bool.not_eq_true'] at h
  unfold goStrLt
  cases hab : lexLt a.data b.data
  · exact absurd (String.ext (lexLt_eq _ _ hab h)) hne
  · rfl

instance : IsTrans DataPoint dpLe := ⟨fun _ _ _ => goStrLe_trans⟩

instance : IsTotal DataPoint dpLe :=
  ⟨fun a b => Bool.or_eq_true _ _ |>.mp (goStrLe_total a.x b.x)⟩

instance : IsTrans Dataset dsLe := ⟨fun _ _ _ => goStrLe_trans⟩

instance : IsTotal Dataset dsLe :=
  ⟨fun a b => Bool.or_eq_true _ _ |>.mp (goStrLe_total a.label b.label)⟩

/-! ## Accumulator lemmas -/

theorem accKeys_cons (k' : String) (ps : List DataPoint) (tl : Acc) :
    accKeys ((k', ps) :: tl) = k' :: accKeys tl := rfl

theorem lookupD_accAppend (acc : Acc) (l : String) (p : DataPoint) (k : String) :
    lookupD (accAppend acc l p) k
      = lookupD acc k ++ (if k = l then [p] else []) := by
  induction acc with
  | nil =>
    by_cases h : l = k
    · subst h; simp [accAppend, lookupD]
    · simp [accAppend, lookupD, h, Ne.symm h]
  | cons hd tl ih =>
    obtain ⟨k', ps⟩ := hd
    by_cases h1 : k' = l
    · subst h1
      by_cases h2 : k' = k
      · subst h2; simp [accAppend, lookupD]
      · simp [accAppend, lookupD, h2, Ne.symm h2]
    · by_cases h2 : k' = k
      · subst h2
        simp [accAppend, lookupD, h1, Ne.symm h1]
      · simp [accAppend, lookupD, h1, h2, ih]

theorem accKeys_accAppend (acc : Acc) (l : String) (p : DataPoint) :
    accKeys (accAppend acc l p)
      = if l ∈ accKeys acc then accKeys acc else accKeys acc ++ [l] := by
  induction acc with
  | nil => simp [accAppend, accKeys]
  | cons hd tl ih =>
    obtain ⟨k', ps⟩ := hd
    by_cases h1 : k' = l
    · subst h1
      have he : accAppend ((k', ps) :: tl) k' p = (k', ps ++ [p]) :: tl := by
        simp [accAppend]
      rw [he, accKeys_cons, accKeys_cons]
      simp
    · have he : accAppend ((k', ps) :: tl) l p = (k', ps) :: accAppend tl l p := by
        simp [accAppend, h1]
      rw [he, accKeys_cons, accKeys_cons, ih]
      by_cases h2 : l ∈ accKeys tl
      · simp [h2, List.mem_cons, Ne.symm h1]
      · have hnm : l ∉ (k' :: accKeys tl) := by
          simp [List.mem_cons, h2, Ne.symm h1]
        simp [h2, hnm]

theorem nodup_accKeys_accAppend {acc : Acc} (h : (accKeys acc).Nodup)
    (l : String) (p : DataPoint) : (accKeys (accAppend acc l p)).Nodup := by
  rw [accKeys_accAppend]
  by_cases hm : l ∈ accKeys acc
  · simp [hm, h]
  · simp [hm, List.nodup_append, h]

theorem accMulti_cons (acc : Acc) (pr : String × DataPoint)
    (rest : List (String × DataPoint)) :
    accMulti acc (pr :: rest) = accMulti (accAppend acc pr.1 pr.2) rest := rfl

theorem lookupD_accMulti (prs : List (String × DataPoint)) (acc : Acc) (k : String) :
    lookupD (accMulti acc prs) k
      = lookupD acc k ++ (prs.filter (fun pr => pr.1 == k)).map Prod.snd := by
  induction prs generalizing acc with
  | nil => simp [accMulti]
  | cons pr rest ih =>
    obtain ⟨l, p⟩ := pr
    rw [accMulti_cons, ih, lookupD_accAppend, List.filter_cons]
    by_cases h : l = k
    · subst h; simp [List.append_assoc]
    · simp [h, Ne.symm h]

theorem mem_accKeys_accMulti (prs : List (String × DataPoint)) (acc : Acc) (k : String) :
    k ∈ accKeys (accMulti acc prs) ↔ k ∈ accKeys acc ∨ k ∈ prs.map Prod.fst := by
  induction prs generalizing acc with
  | nil => simp [accMulti]
  | cons pr rest ih =>
    obtain ⟨l, p⟩ := pr
    rw [accMulti_cons, ih, accKeys_accAppend]
    by_cases hm : l ∈ accKeys acc
    · simp only [hm, if_true, List.map_cons, List.mem_cons]
      constructor
      · rintro (h | h)
        · exact Or.inl h
        · exact Or.inr (Or.inr h)
      · rintro (h | rfl | h)
        · exact Or.inl h
        · exact Or.inl hm
        · exact Or.inr h
    · simp only [hm, if_false, List.mem_append, List.mem_singleton,
        List.map_cons, List.mem_cons]
      tauto

theorem nodup_accKeys_accMulti (prs : List (String × DataPoint)) (acc : Acc)
    (h : (accKeys acc).Nodup) : (accKeys (accMulti acc prs)).Nodup := by
  induction prs generalizing acc with
  | nil => exact h
  | cons pr rest ih => exact ih _ (nodup_accKeys_accAppend h pr.1 pr.2)

/-! ## Row-loop and file-loop characterisation -/

theorem processRow_eq (tz : Int → Int) (c : Cols) (acc : Acc)
    (r : Option (List String)) :
    processRow tz c acc r
      = match rowQual tz c r with
        | none => acc
        | some pr => accAppend acc pr.1 pr.2 := by
  cases r with
  | none => rfl
  | some rec' =>
    show processRecord tz c acc rec' = _
    unfold processRecord rowQual rowDP
    by_cases h1 : rec'.length ≤ maxReqIdx c
    · simp [h1]
    · by_cases h2 : fieldD rec' c.stIdx = "success"
      · cases ht : parseDateTime (fieldD rec' c.tsIdx) <;>
        cases hu : strconvAtoi (fieldD rec' c.ucIdx) <;>
          simp [h1, h2, ht, hu]
      · simp [h1, h2]

theorem foldl_processRow (tz : Int → Int) (c : Cols)
    (rows : List (Option (List String))) (acc : Acc) :
    rows.foldl (processRow tz c) acc = accMulti acc (qualRows tz c rows) := by
  induction rows generalizing acc with
  | nil => rfl
  | cons r rest ih =>
    rw [List.foldl_cons, ih]
    unfold qualRows
    rw [List.filterMap_cons, processRow_eq]
    cases hq : rowQual tz c r with
    | none => rfl
    | some pr => rw [accMulti_cons]

theorem processCSVFile_ok {tz : Int → Int} {content : Option CSVFile}
    {acc acc' : Acc} (h : processCSVFile tz content acc = .ok acc') :
    ∃ file, content = some file ∧ acc' = accMulti acc (fileQual tz file) := by
  cases content with
  | none => simp [processCSVFile] at h
  | some file =>
    refine ⟨file, rfl, ?_⟩
    cases hr : file.rows with
    | nil => simp [processCSVFile, hr] at h
    | cons r rest =>
      cases r with
      | none => simp [processCSVFile, hr] at h
      | some headers =>
        cases hts : findColIdx "timestamp" headers with
        | none => simp [processCSVFile, hr, hts] at h
        | some tsI =>
          cases hloc : findColIdx "location_name" headers with
          | none => simp [processCSVFile, hr, hts, hloc] at h
          | some locI =>
            cases huc : findColIdx "user_count" headers with
            | none => simp [processCSVFile, hr, hts, hloc, huc] at h
            | some ucI =>
              cases hst : findColIdx "status" headers with
              | none => simp [processCSVFile, hr, hts, hloc, huc, hst] at h
              | some stI =>
                simp only [processCSVFile, hr, hts, hloc, huc, hst,
                  Except.ok.injEq] at h
                rw [← h, foldl_processRow]
                simp [fileQual, fileCols, fileBody, hr, hts, hloc, huc, hst]

theorem processCSVFile_error_of_broken {content : Option CSVFile}
    (hb : fileBroken content = true) (tz : Int → Int) (acc : Acc) :
    ∃ e, processCSVFile tz content acc = .error e := by
  cases content with
  | none => exact ⟨.openFailed, rfl⟩
  | some file =>
    cases hr : file.rows with
    | nil => exact ⟨.headerFailed, by simp [processCSVFile, hr]⟩
    | cons r rest =>
      cases r with
      | none => exact ⟨.headerFailed, by simp [processCSVFile, hr]⟩
      | some headers =>
        simp only [fileBroken, hr] at hb
        refine ⟨.missingColumns, ?_⟩
        cases hts : findColIdx "timestamp" headers <;>
        cases hloc : findColIdx "location_name" headers <;>
        cases huc : findColIdx "user_count" headers <;>
        cases hst : findColIdx "status" headers <;>
          simp [processCSVFile, hr, hts, hloc, huc, hst] at hb ⊢

theorem accumFiles_ok {tz : Int → Int} {fsys : String → Option CSVFile} :
    ∀ {files : List String} {acc acc' : Acc},
    accumFiles tz fsys acc files = .ok acc' →
    acc' = accMulti acc (allQual tz fsys files)
  | [], acc, acc' => by
    intro h
    simp only [accumFiles, Except.ok.injEq] at h
    simp [allQual, accMulti, ← h]
  | f :: rest, acc, acc' => by
    intro h
    simp only [accumFiles] at h
    cases hp : processCSVFile tz (fsys f) acc with
    | error e => rw [hp] at h; cases h
    | ok acc1 =>
      rw [hp] at h
      obtain ⟨file, hc, hacc1⟩ := processCSVFile_ok hp
      have hrec := accumFiles_ok h
      rw [hrec, hacc1]
      simp [allQual, accMulti, List.foldl_append, fsysQual, hc]

theorem accumFiles_error_of_broken {tz : Int → Int} {fsys : String → Option CSVFile}
    {files : List String} {f : String} (hf : f ∈ files)
    (hb : fileBroken (fsys f) = true) :
    ∀ acc, ∃ e, accumFiles tz fsys acc files = .error e := by
  induction files with
  | nil => simp at hf
  | cons g rest ih =>
    intro acc
    cases hp : processCSVFile tz (fsys g) acc with
    | error e => exact ⟨.processFailed g e, by simp [accumFiles, hp]⟩
    | ok acc1 =>
      rcases List.mem_cons.mp hf with rfl | hf'
      · obtain ⟨e, he⟩ := processCSVFile_error_of_broken hb tz acc
        rw [hp] at he
        exact (Except.noConfusion he)
      · obtain ⟨e, he⟩ := ih hf' acc1
        exact ⟨e, by simp [accumFiles, hp, he]⟩

theorem convert_ok {tz : Int → Int} {fsys : String → Option CSVFile}
    {order files : List String} {ds : List Dataset}
    (h : convertCSVFilesToJSON tz fsys order files = .ok ds) :
    ∃ acc, accumFiles tz fsys [] files = .ok acc ∧
      ds = sortDatasets (order.map (fun l => ⟨l, sortDataPoints (lookupD acc l)⟩)) := by
  unfold convertCSVFilesToJSON at h
  cases ha : accumFiles tz fsys [] files with
  | error e => rw [ha] at h; cases h
  | ok acc =>
    rw [ha] at h
    simp only [Except.ok.injEq] at h
    exact ⟨acc, rfl, h.symm⟩

/-! ## Claim theorems -/

/-- C3: the timestamp normaliser rounds the zone-converted local
minute down to the nearest even value (the bucketed minute is even, at
most the local minute, and less than two minutes below it) and zeroes
the seconds before rendering; concretely, a sample whose local
converted time is 14:03:47 renders with minute 02 and seconds 00. -/
theorem claim3_two_minute_bucketing (tz : Int → Int) (t : DateTime) :
    (bucket2min (localTimeOf tz t)).minute % 2 = 0 ∧
    (bucket2min (localTimeOf tz t)).minute ≤ (localTimeOf tz t).minute ∧
    (localTimeOf tz t).minute < (bucket2min (localTimeOf tz t)).minute + 2 ∧
    (bucket2min (localTimeOf tz t)).second = 0 ∧
    normalizeTimestamp tz t
      = renderISO (bucket2min (localTimeOf tz t)) (tz (dtToSecs t)) ∧
    parseDateTime "2024-01-15 12:03:47" = some ⟨2024, 1, 15, 12, 3, 47⟩ ∧
    localTimeOf fixedEET ⟨2024, 1, 15, 12, 3, 47⟩ = ⟨2024, 1, 15, 14, 3, 47⟩ ∧
    normalizeTimestamp fixedEET ⟨2024, 1, 15, 12, 3, 47⟩
      = "2024-01-15T14:02:00+02:00" := by
  refine ⟨?_, ?_, ?_, rfl, rfl, by decide, by decide, by decide⟩
  · show (localTimeOf tz t).minute / 2 * 2 % 2 = 0
    omega
  · show (localTimeOf tz t).minute / 2 * 2 ≤ (localTimeOf tz t).minute
    omega
  · show (localTimeOf tz t).minute < (localTimeOf tz t).minute / 2 * 2 + 2
    omega

/-- C7: if processing any one selected file fails (the file cannot be
opened, its header is missing or unreadable, or a required column is
absent), the whole multi-file request fails with an error; no partial
aggregate is returned. -/
theorem claim7_file_failure_fails_request (tz : Int → Int)
    (fsys : String → Option CSVFile) (order files : List String) (f : String)
    (hf : f ∈ files) (hb : fileBroken (fsys f) = true) :
    ∃ e, convertCSVFilesToJSON tz fsys order files = .error e := by
  obtain ⟨e, he⟩ := accumFiles_error_of_broken hf hb []
  exact ⟨e, by unfold convertCSVFilesToJSON; rw [he]⟩

/-- C8 counterexample: a call whose `from` bound does not parse can
still fail with the no-files error rather than the invalid-date-format
error, because the glob-emptiness check runs before date parsing. -/
theorem claim8_counterexample :
    findCSVFilesInRange [] "not-a-date" "2024-01-14" = .error .noFilesFound ∧
    parseDate "not-a-date" = none ∧
    Err.noFilesFound ≠ Err.invalidFromDate ∧
    Err.noFilesFound ≠ Err.invalidToDate := by
  refine ⟨rfl, rfl, by decide, by decide⟩

/-- C8 (amended): provided the filename pattern matched at least one
file, a `from`/`to` parse failure makes `findCSVFilesInRange` fail
with the corresponding invalid-date-format error. -/
theorem claim8_invalid_date_error (files : List String) (fromS toS : String)
    (hne : files ≠ [])
    (hbad : parseDate fromS = none ∨ parseDate toS = none) :
    ∃ e, findCSVFilesInRange files fromS toS = .error e ∧
      (e = .invalidFromDate ∨ e = .invalidToDate) := by
  unfold findCSVFilesInRange
  rw [if_neg (by simpa using hne)]
  cases hf : parseDate fromS with
  | none => exact ⟨.invalidFromDate, rfl, Or.inl rfl⟩
  | some fromD =>
    rcases hbad with hb | hb
    · rw [hf] at hb; cases hb
    · rw [hb]
      exact ⟨.invalidToDate, rfl, Or.inr rfl⟩

/-- C9: when the pattern matches at least one file but `os.Stat` fails
on every matched file, `findLatestCSV` returns the empty file name
together with a nil error — a success carrying no file. -/
theorem claim9_all_stat_failures_empty_success (files : List String)
    (stat : String → Option Int) (hne : files ≠ [])
    (hall : ∀ f ∈ files, stat f = none) :
    findLatestCSV files stat = .ok "" := by
  unfold findLatestCSV
  rw [if_neg (by simpa using hne)]
  have hfold : ∀ (fs : List String) (st : String × Int)
      (step : String × Int → String → String × Int),
      (∀ st' f, f ∈ fs → step st' f = st') → fs.foldl step st = st := by
    intro fs
    induction fs with
    | nil => intro st step _; rfl
    | cons g rest ih =>
      intro st step h
      rw [List.foldl_cons, h st g (by simp)]
      exact ih st step (fun st' f hf => h st' f (by simp [hf]))
  rw [hfold files ("", 0) _ (fun st' f hf => by simp [hall f hf])]

/-- C10: a parseable range whose `from` lies strictly after `to` is a
legitimate empty range: with a nonempty glob, the call returns an
empty list and no error. -/
theorem claim10_inverted_range_empty (files : List String) (fromS toS : String)
    (fromD toD : Date) (hne : files ≠ [])
    (hfrom : parseDate fromS = some fromD) (hto : parseDate toS = some toD)
    (hgt : dateDays toD < dateDays fromD) :
    findCSVFilesInRange files fromS toS = .ok [] := by
  unfold findCSVFilesInRange
  rw [if_neg (by simpa using hne)]
  simp only [hfrom, hto]
  have hfilter : (files.filter (fun file =>
      match extractFileDate file with
      | none => false
      | some fd => inRange fromD toD fd)) = [] := by
    rw [List.filter_eq_nil_iff]
    intro file _
    cases he : extractFileDate file with
    | none => simp [he]
    | some fd =>
      simp only [he, Bool.not_eq_true]
      unfold inRange
      rcases lt_or_le (dateDays fd) (dateDays fromD) with hlt | hge
      · have e1 : (dateDays fd == dateDays fromD) = false := by
          simp only [beq_eq_false_iff_ne, ne_eq]; omega
        have e2 : decide (dateDays fromD < dateDays fd) = false := by
          simp only [decide_eq_false_iff_not]; omega
        simp [e1, e2]
      · have e1 : (dateDays fd == dateDays toD) = false := by
          simp only [beq_eq_false_iff_ne, ne_eq]; omega
        have e2 : decide (dateDays fd < dateDays toD + 1) = false := by
          simp only [decide_eq_false_iff_not]; omega
        simp [e1, e2]
  rw [hfilter]

/-- C4: in every successful output the dataset labels are
lexicographically nondecreasing and within each dataset the rendered
`x` strings are lexicographically nondecreasing. -/
theorem claim4_output_sorted (tz : Int → Int) (fsys : String → Option CSVFile)
    (order files : List String) (ds : List Dataset)
    (hconv : convertCSVFilesToJSON tz fsys order files = .ok ds) :
    List.Pairwise (fun a b => goStrLe a.label b.label = true) ds ∧
    ∀ d ∈ ds, List.Pairwise (fun p q => goStrLe p.x q.x = true) d.data := by
  obtain ⟨acc, _, hds⟩ := convert_ok hconv
  subst hds
  constructor
  · exact List.sorted_insertionSort dsLe _
  · intro d hd
    have hmem : d ∈ order.map
        (fun l => (⟨l, sortDataPoints (lookupD acc l)⟩ : Dataset)) :=
      (List.perm_insertionSort dsLe _).mem_iff.mp hd
    obtain ⟨l, _, hdl⟩ := List.mem_map.mp hmem
    rw [← hdl]
    exact List.sorted_insertionSort dpLe _

/-- C6: the aggregation is deterministic: on an identical file set in
identical order, the output value — and hence the rendered JSON, byte
for byte — does not depend on the map iteration order. -/
theorem claim6_deterministic (tz : Int → Int) (fsys : String → Option CSVFile)
    (files order1 order2 : List String) (ds1 ds2 : List Dataset)
    (h1 : convertCSVFilesToJSON tz fsys order1 files = .ok ds1)
    (h2 : convertCSVFilesToJSON tz fsys order2 files = .ok ds2)
    (ho1 : order1.Perm (qualLocations tz fsys files))
    (ho2 : order2.Perm (qualLocations tz fsys files)) :
    ds1 = ds2 ∧ renderJSON ds1 = renderJSON ds2 := by
  obtain ⟨acc1, hacc1, hds1⟩ := convert_ok h1
  obtain ⟨acc2, hacc2, hds2⟩ := convert_ok h2
  have haeq : acc2 = acc1 := by
    rw [accumFiles_ok hacc1, accumFiles_ok hacc2]
  rw [haeq] at hds2
  set mk := fun l => (⟨l, sortDataPoints (lookupD acc1 l)⟩ : Dataset) with hmk
  have hqnd : (qualLocations tz fsys files).Nodup :=
    nodup_accKeys_accMulti _ [] (by simp [accKeys])
  have hnd1 : order1.Nodup := ho1.nodup_iff.mpr hqnd
  have hnd2 : order2.Nodup := ho2.nodup_iff.mpr hqnd
  have hperm12 : (order1.map mk).Perm (order2.map mk) :=
    (ho1.trans ho2.symm).map mk
  have hperm : (sortDatasets (order1.map mk)).Perm (sortDatasets (order2.map mk)) :=
    ((List.perm_insertionSort dsLe _).trans hperm12).trans
      (List.perm_insertionSort dsLe _).symm
  have hlabels : ∀ (ord : List String), (ord.map mk).map Dataset.label = ord := by
    intro ord
    rw [List.map_map]
    have hcomp : (Dataset.label ∘ mk) = id := by funext l; rfl
    rw [hcomp, List.map_id]
  have hstrict : ∀ (s : List Dataset), List.Pairwise dsLe s →
      (s.map Dataset.label).Nodup →
      List.Pairwise (fun a b => goStrLt a.label b.label = true) s := by
    intro s hle hnd
    have hne : List.Pairwise (fun a b : Dataset => a.label ≠ b.label) s :=
      List.pairwise_map.mp hnd
    exact (hle.and hne).imp (fun h => goStrLt_of_le_of_ne h.1 h.2)
  have hndl1 : ((sortDatasets (order1.map mk)).map Dataset.label).Nodup := by
    have : ((sortDatasets (order1.map mk)).map Dataset.label).Perm order1 := by
      have := (List.perm_insertionSort dsLe (order1.map mk)).map Dataset.label
      rwa [hlabels] at this
    exact this.nodup_iff.mpr hnd1
  have hndl2 : ((sortDatasets (order2.map mk)).map Dataset.label).Nodup := by
    have : ((sortDatasets (order2.map mk)).map Dataset.label).Perm order2 := by
      have := (List.perm_insertionSort dsLe (order2.map mk)).map Dataset.label
      rwa [hlabels] at this
    exact this.nodup_iff.mpr hnd2
  letI : IsAntisymm Dataset (fun a b => goStrLt a.label b.label = true) :=
    ⟨fun a b hab hba => by
      unfold goStrLt at hab hba
      rw [lexLt_asymm _ _ hab] at hba
      cases hba⟩
  have heq : sortDatasets (order1.map mk) = sortDatasets (order2.map mk) :=
    List.eq_of_perm_of_sorted hperm
      (hstrict _ (List.sorted_insertionSort dsLe _) hndl1)
      (hstrict _ (List.sorted_insertionSort dsLe _) hndl2)
  rw [hds1, hds2, heq]
  exact ⟨rfl, rfl⟩

/-! ## File-name lemmas for the range locator -/

theorem digitChar_isDigit (k : Nat) : (digitChar k).isDigit = true := by
  unfold digitChar
  have h : k % 10 < 10 := Nat.mod_lt _ (by omega)
  generalize k % 10 = r at h ⊢
  interval_cases r <;> decide

theorem digitVal_digitChar (k : Nat) : digitVal (digitChar k) = k % 10 := by
  unfold digitChar digitVal
  have h : k % 10 < 10 := Nat.mod_lt _ (by omega)
  generalize k % 10 = r at h ⊢
  interval_cases r <;> decide

theorem digitChar_ne_slash (k : Nat) : digitChar k ≠ '/' := by
  unfold digitChar
  have h : k % 10 < 10 := Nat.mod_lt _ (by omega)
  generalize k % 10 = r at h ⊢
  interval_cases r <;> decide

theorem takeWhile_all {p : Char → Bool} : ∀ {cs : List Char},
    (∀ ch ∈ cs, p ch = true) → cs.takeWhile p = cs := by
  intro cs
  induction cs with
  | nil => intro _; rfl
  | cons x xs ih =>
    intro h
    rw [List.takeWhile_cons]
    simp [h x (List.mem_cons_self _ _),
      ih (fun ch hch => h ch (List.mem_cons_of_mem _ hch))]

theorem baseName_eq_self {s : String} (h : ∀ ch ∈ s.data, ch ≠ '/') :
    baseName s = s := by
  unfold baseName
  have hta : s.data.reverse.takeWhile (fun c => c ≠ '/') = s.data.reverse := by
    apply takeWhile_all
    intro ch hch
    simp only [ne_eq, decide_eq_true_eq]
    exact h ch (List.mem_reverse.mp hch)
  rw [hta, List.reverse_reverse]

theorem parseYYYYMMDD_cons (y1 y2 y3 y4 o1 o2 d1 d2 : Char) :
    parseYYYYMMDD [y1, y2, y3, y4, o1, o2, d1, d2]
      = (if ([y1, y2, y3, y4, o1, o2, d1, d2].all Char.isDigit) then
          (let yv := digitVal y1 * 1000 + digitVal y2 * 100 + digitVal y3 * 10 + digitVal y4
           let mo := digitVal o1 * 10 + digitVal o2
           let dv := digitVal d1 * 10 + digitVal d2
           if 1 ≤ mo ∧ mo ≤ 12 ∧ 1 ≤ dv ∧ dv ≤ daysInMonth yv mo then
             some ⟨yv, mo, dv⟩
           else none)
         else none) := rfl

theorem daysInMonth_le (y m : Nat) : daysInMonth y m ≤ 31 := by
  unfold daysInMonth
  split_ifs <;> omega

theorem extractFileDate_csvName (y m d : Nat) (hy : y ≤ 9999)
    (hm1 : 1 ≤ m) (hm2 : m ≤ 12) (hd1 : 1 ≤ d) (hd2 : d ≤ daysInMonth y m) :
    extractFileDate (csvName y m d) = some ⟨y, m, d⟩ := by
  have hd99 : d ≤ 31 := le_trans hd2 (daysInMonth_le y m)
  have hbase : baseName (csvName y m d) = csvName y m d := by
    apply baseName_eq_self
    intro ch hch
    have hch' : ch ∈ (['g', 'y', 'm', '-', 's', 't', 'a', 't', 's', '-']
        ++ pad4 y ++ pad2 m ++ pad2 d ++ ['.', 'c', 's', 'v'] : List Char) := hch
    simp only [List.mem_append] at hch'
    intro he
    subst he
    rcases hch' with (((hpre | hp4) | hp2m) | hp2d) | hsuf
    · revert hpre; decide
    · unfold pad4 at hp4
      simp only [List.mem_cons, List.mem_singleton, List.not_mem_nil,
        or_false] at hp4
      rcases hp4 with h | h | h | h <;> exact digitChar_ne_slash _ h.symm
    · unfold pad2 at hp2m
      simp only [List.mem_cons, List.mem_singleton, List.not_mem_nil,
        or_false] at hp2m
      rcases hp2m with h | h <;> exact digitChar_ne_slash _ h.symm
    · unfold pad2 at hp2d
      simp only [List.mem_cons, List.mem_singleton, List.not_mem_nil,
        or_false] at hp2d
      rcases hp2d with h | h <;> exact digitChar_ne_slash _ h.symm
    · revert hsuf; decide
  have hlen : (csvName y m d).data.length = 22 := by
    show (['g', 'y', 'm', '-', 's', 't', 'a', 't', 's', '-']
        ++ pad4 y ++ pad2 m ++ pad2 d ++ ['.', 'c', 's', 'v'] : List Char).length = 22
    simp [pad4, pad2]
  unfold extractFileDate
  rw [hbase]
  show (if (csvName y m d).data.length < 20 then none
    else parseYYYYMMDD (((csvName y m d).data.drop 10).take 8))
      = some ⟨y, m, d⟩
  rw [if_neg (by rw [hlen]; omega)]
  have hslice : (((csvName y m d).data).drop 10).take 8
      = [digitChar (y / 1000), digitChar (y / 100), digitChar (y / 10), digitChar y,
         digitChar (m / 10), digitChar m, digitChar (d / 10), digitChar d] := rfl
  rw [hslice, parseYYYYMMDD_cons]
  rw [if_pos (by simp [digitChar_isDigit])]
  simp only [digitVal_digitChar]
  have hyv : y / 1000 % 10 * 1000 + y / 100 % 10 * 100 + y / 10 % 10 * 10 + y % 10 = y := by
    omega
  have hmv : m / 10 % 10 * 10 + m % 10 = m := by omega
  have hdv : d / 10 % 10 * 10 + d % 10 = d := by omega
  rw [hyv, hmv, hdv]
  rw [if_pos ⟨hm1, hm2, hd1, hd2⟩]

/-- C2: every candidate file named `gym-stats-YYYYMMDD.csv` with a
valid embedded date is selected exactly when its date lies in the
inclusive parsed range; concretely, among files dated 2024-01-10
through 2024-01-15 the range 2024-01-12 to 2024-01-14 selects exactly
the files dated 12, 13 and 14. -/
theorem claim2_range_inclusive :
    (∀ (files : List String) (fromS toS : String) (fromD toD : Date)
        (y m d : Nat) (out : List String),
      parseDate fromS = some fromD → parseDate toS = some toD →
      y ≤ 9999 → 1 ≤ m → m ≤ 12 → 1 ≤ d → d ≤ daysInMonth y m →
      findCSVFilesInRange files fromS toS = .ok out →
      (csvName y m d ∈ out ↔ csvName y m d ∈ files ∧
        dateDays fromD ≤ dateDays ⟨y, m, d⟩ ∧
        dateDays ⟨y, m, d⟩ ≤ dateDays toD)) ∧
    findCSVFilesInRange demoRangeFiles "2024-01-12" "2024-01-14"
      = .ok ["gym-stats-20240112.csv", "gym-stats-20240113.csv",
             "gym-stats-20240114.csv"] := by
  constructor
  · intro files fromS toS fromD toD y m d out hfrom hto hy hm1 hm2 hd1 hd2 hconv
    unfold findCSVFilesInRange at hconv
    by_cases hfe : files.isEmpty
    · rw [if_pos hfe] at hconv; cases hconv
    · rw [if_neg hfe] at hconv
      simp only [hfrom, hto, Except.ok.injEq] at hconv
      subst hconv
      rw [List.mem_filter]
      have hex : extractFileDate (csvName y m d) = some ⟨y, m, d⟩ :=
        extractFileDate_csvName y m d hy hm1 hm2 hd1 hd2
      constructor
      · rintro ⟨hmem, hpred⟩
        refine ⟨hmem, ?_⟩
        simp only [hex] at hpred
        unfold inRange at hpred
        simp only [Bool.and_eq_true, Bool.or_eq_true, beq_iff_eq,
          decide_eq_true_eq] at hpred
        omega
      · rintro ⟨hmem, h1, h2⟩
        refine ⟨hmem, ?_⟩
        simp only [hex]
        unfold inRange
        simp only [Bool.and_eq_true, Bool.or_eq_true, beq_iff_eq,
          decide_eq_true_eq]
        omega
  · rfl

/-! ## Exactly-once appearance of qualifying rows -/

theorem filter_eq_singleton_of_nodup {l : String} : ∀ {xs : List String},
    xs.Nodup → l ∈ xs → xs.filter (fun k => k == l) = [l] := by
  intro xs
  induction xs with
  | nil => intro _ h; cases h
  | cons x rest ih =>
    intro hnd hmem
    rw [List.filter_cons]
    rcases List.mem_cons.mp hmem with rfl | hmem'
    · have hnot : l ∉ rest := (List.nodup_cons.mp hnd).1
      have hrest : rest.filter (fun k => k == l) = [] := by
        rw [List.filter_eq_nil_iff]
        intro a ha
        simp only [Bool.not_eq_true, beq_eq_false_iff_ne, ne_eq]
        intro heq
        exact hnot (heq ▸ ha)
      simp [hrest]
    · have hx : (x == l) = false := by
        simp only [beq_eq_false_iff_ne, ne_eq]
        intro heq
        exact (List.nodup_cons.mp hnd).1 (heq ▸ hmem')
      simp only [hx, Bool.false_eq_true, if_false]
      exact ih (List.nodup_cons.mp hnd).2 hmem'

/-- C1: every CSV row of a selected log file whose status is
`success`, whose timestamp parses in the fixed format and whose user
count parses as an integer appears exactly once in the aggregate
output: there is exactly one dataset labelled with the row's
`location_name`, the row yields the point `dp` with `y` equal to the
parsed integer, and the number of copies of `dp` in that dataset
equals the number of qualifying row occurrences across all selected
files that produce the same location and point (in particular it is
positive). -/
theorem claim1_qualifying_row_exactly_once (tz : Int → Int)
    (fsys : String → Option CSVFile) (order files : List String)
    (ds : List Dataset) (f : String) (file : CSVFile) (c : Cols)
    (rec' : List String) (n : Int)
    (hconv : convertCSVFilesToJSON tz fsys order files = .ok ds)
    (horder : order.Perm (qualLocations tz fsys files))
    (hf : f ∈ files) (hfile : fsys f = some file)
    (hcols : fileCols file = some c)
    (hrow : some rec' ∈ fileBody file)
    (hlen : maxReqIdx c < rec'.length)
    (hstatus : fieldD rec' c.stIdx = "success")
    (ht : (parseDateTime (fieldD rec' c.tsIdx)).isSome = true)
    (hn : strconvAtoi (fieldD rec' c.ucIdx) = some n) :
    ∃ d0 dp, ds.filter (fun d1 => d1.label == fieldD rec' c.locIdx) = [d0] ∧
      rowDP tz c rec' = some (fieldD rec' c.locIdx, dp) ∧
      dp.y = n ∧
      0 < d0.data.count dp ∧
      d0.data.count dp = ((allQual tz fsys files).filter
        (fun pr => pr.1 == fieldD rec' c.locIdx && pr.2 == dp)).length := by
  obtain ⟨t0, ht0⟩ := Option.isSome_iff_exists.mp ht
  set l := fieldD rec' c.locIdx with hl
  set dp : DataPoint := ⟨normalizeTimestamp tz t0, n⟩ with hdp
  have hrowdp : rowDP tz c rec' = some (l, dp) := by
    unfold rowDP
    rw [if_neg (show ¬ rec'.length ≤ maxReqIdx c by omega)]
    rw [if_neg (show ¬ fieldD rec' c.stIdx ≠ "success" by simp [hstatus])]
    simp only [ht0, hn]
  have hmemfile : (l, dp) ∈ fileQual tz file := by
    unfold fileQual
    rw [hcols]
    unfold qualRows
    exact List.mem_filterMap.mpr ⟨some rec', hrow, hrowdp⟩
  have hmemall : (l, dp) ∈ allQual tz fsys files := by
    unfold allQual
    refine List.mem_flatMap.mpr ⟨f, hf, ?_⟩
    unfold fsysQual
    rw [hfile]
    exact hmemfile
  obtain ⟨acc, hacc, hds⟩ := convert_ok hconv
  have haccdef : acc = accMulti [] (allQual tz fsys files) := accumFiles_ok hacc
  have hlin : l ∈ order := by
    rw [horder.mem_iff]
    unfold qualLocations
    rw [mem_accKeys_accMulti]
    exact Or.inr (List.mem_map.mpr ⟨(l, dp), hmemall, rfl⟩)
  have hndq : (qualLocations tz fsys files).Nodup :=
    nodup_accKeys_accMulti _ [] (by simp [accKeys])
  have hnd : order.Nodup := horder.nodup_iff.mpr hndq
  set mk := fun k => (⟨k, sortDataPoints (lookupD acc k)⟩ : Dataset) with hmk
  have hfilter_order : order.filter (fun k => k == l) = [l] :=
    filter_eq_singleton_of_nodup hnd hlin
  have hfilter_ds : ds.filter (fun d1 => d1.label == l) = [mk l] := by
    have hp : (ds.filter (fun d1 => d1.label == l)).Perm
        ((order.map mk).filter (fun d1 => d1.label == l)) := by
      rw [hds]
      exact (List.perm_insertionSort dsLe _).filter _
    have hcomp : ((order.map mk).filter (fun d1 => d1.label == l))
        = (order.filter (fun k => k == l)).map mk := by
      rw [List.filter_map]
      have : ((fun d1 : Dataset => d1.label == l) ∘ mk) = (fun k => k == l) := by
        funext k
        rfl
      rw [this]
    rw [hcomp, hfilter_order] at hp
    exact List.perm_singleton.mp hp
  have hlook : lookupD acc l = ((allQual tz fsys files).filter
      (fun pr => pr.1 == l)).map Prod.snd := by
    rw [haccdef, lookupD_accMulti]
    simp [lookupD]
  have hcount : (mk l).data.count dp
      = ((allQual tz fsys files).filter
          (fun pr => pr.1 == l && pr.2 == dp)).length := by
    show (sortDataPoints (lookupD acc l)).count dp = _
    unfold sortDataPoints
    rw [(List.perm_insertionSort dpLe _).count_eq]
    rw [hlook]
    rw [List.count_eq_countP, List.countP_map, List.countP_filter]
    rw [List.countP_eq_length_filter]
    congr 1
    apply List.filter_congr
    intro pr _
    show ((pr.2 == dp) && (pr.1 == l)) = ((pr.1 == l) && (pr.2 == dp))
    exact Bool.and_comm _ _
  have hpos : 0 < ((allQual tz fsys files).filter
      (fun pr => pr.1 == l && pr.2 == dp)).length := by
    apply List.length_pos_of_mem
    exact List.mem_filter.mpr ⟨hmemall, by simp⟩
  exact ⟨mk l, dp, hfilter_ds, hrowdp, rfl, by rw [hcount]; exact hpos, hcount⟩

/-! ## Witnesses: the claim theorems applied at concrete inputs -/

theorem claim1_witness :
    ∃ d0 dp,
      ([⟨"Hipodroom", [⟨"2024-01-15T14:02:00+02:00", 5⟩]⟩,
        ⟨"T1", [⟨"2024-01-15T14:04:00+02:00", 7⟩]⟩] : List Dataset).filter
          (fun d1 => d1.label == fieldD demoRec 2) = [d0] ∧
      rowDP fixedEET ⟨0, 2, 3, 4⟩ demoRec = some (fieldD demoRec 2, dp) ∧
      dp.y = 5 ∧
      0 < d0.data.count dp ∧
      d0.data.count dp = ((allQual fixedEET demoFS demoFiles).filter
        (fun pr => pr.1 == fieldD demoRec 2 && pr.2 == dp)).length :=
  claim1_qualifying_row_exactly_once fixedEET demoFS ["Hipodroom", "T1"]
    demoFiles
    [⟨"Hipodroom", [⟨"2024-01-15T14:02:00+02:00", 5⟩]⟩,
     ⟨"T1", [⟨"2024-01-15T14:04:00+02:00", 7⟩]⟩]
    "gym-stats-20240115.csv" demoFile ⟨0, 2, 3, 4⟩ demoRec 5
    (by rfl) (by decide) (by decide) rfl rfl (by decide) (by decide) rfl rfl rfl

theorem claim2_witness :
    csvName 2024 1 13
        ∈ ["gym-stats-20240112.csv", "gym-stats-20240113.csv",
           "gym-stats-20240114.csv"] ↔
      csvName 2024 1 13 ∈ demoRangeFiles ∧
        dateDays ⟨2024, 1, 12⟩ ≤ dateDays ⟨2024, 1, 13⟩ ∧
        dateDays ⟨2024, 1, 13⟩ ≤ dateDays ⟨2024, 1, 14⟩ :=
  claim2_range_inclusive.1 demoRangeFiles "2024-01-12" "2024-01-14"
    ⟨2024, 1, 12⟩ ⟨2024, 1, 14⟩ 2024 1 13
    ["gym-stats-20240112.csv", "gym-stats-20240113.csv", "gym-stats-20240114.csv"]
    rfl rfl (by omega) (by omega) (by omega) (by omega) (by decide)
    claim2_range_inclusive.2

theorem claim4_witness :
    List.Pairwise (fun a b => goStrLe a.label b.label = true)
      ([⟨"Hipodroom", [⟨"2024-01-15T14:02:00+02:00", 5⟩]⟩,
        ⟨"T1", [⟨"2024-01-15T14:04:00+02:00", 7⟩]⟩] : List Dataset) ∧
    ∀ d ∈ ([⟨"Hipodroom", [⟨"2024-01-15T14:02:00+02:00", 5⟩]⟩,
        ⟨"T1", [⟨"2024-01-15T14:04:00+02:00", 7⟩]⟩] : List Dataset),
      List.Pairwise (fun p q => goStrLe p.x q.x = true) d.data :=
  claim4_output_sorted fixedEET demoFS ["T1", "Hipodroom"] demoFiles
    [⟨"Hipodroom", [⟨"2024-01-15T14:02:00+02:00", 5⟩]⟩,
     ⟨"T1", [⟨"2024-01-15T14:04:00+02:00", 7⟩]⟩]
    (by rfl)

theorem claim6_witness :
    ∃ ds1 ds2,
      convertCSVFilesToJSON fixedEET demoFS ["Hipodroom", "T1"] demoFiles
        = .ok ds1 ∧
      convertCSVFilesToJSON fixedEET demoFS ["T1", "Hipodroom"] demoFiles
        = .ok ds2 ∧
      ds1 = ds2 ∧ renderJSON ds1 = renderJSON ds2 := by
  refine ⟨[⟨"Hipodroom", [⟨"2024-01-15T14:02:00+02:00", 5⟩]⟩,
     ⟨"T1", [⟨"2024-01-15T14:04:00+02:00", 7⟩]⟩],
    [⟨"Hipodroom", [⟨"2024-01-15T14:02:00+02:00", 5⟩]⟩,
     ⟨"T1", [⟨"2024-01-15T14:04:00+02:00", 7⟩]⟩], by rfl, by rfl, ?_, ?_⟩
  · exact (claim6_deterministic fixedEET demoFS demoFiles
      ["Hipodroom", "T1"] ["T1", "Hipodroom"] _ _ (by rfl) (by rfl)
      (by decide) (by decide)).1
  · exact (claim6_deterministic fixedEET demoFS demoFiles
      ["Hipodroom", "T1"] ["T1", "Hipodroom"] _ _ (by rfl) (by rfl)
      (by decide) (by decide)).2

theorem claim7_witness :
    ∃ e, convertCSVFilesToJSON fixedEET demoFS2 ["Hipodroom", "T1"] demoFiles2
      = .error e :=
  claim7_file_failure_fails_request fixedEET demoFS2 ["Hipodroom", "T1"]
    demoFiles2 "gym-stats-20240116.csv" (by decide) (by rfl)

theorem claim8_witness :
    ∃ e, findCSVFilesInRange demoRangeFiles "not-a-date" "2024-01-14"
        = .error e ∧
      (e = .invalidFromDate ∨ e = .invalidToDate) :=
  claim8_invalid_date_error demoRangeFiles "not-a-date" "2024-01-14"
    (by decide) (Or.inl rfl)

theorem claim9_witness :
    findLatestCSV ["gym-stats-20240115.csv"] (fun _ => none) = .ok "" :=
  claim9_all_stat_failures_empty_success ["gym-stats-20240115.csv"]
    (fun _ => none) (by decide) (fun _ _ => rfl)

theorem claim10_witness :
    findCSVFilesInRange demoRangeFiles "2024-01-14" "2024-01-12" = .ok [] :=
  claim10_inverted_range_empty demoRangeFiles "2024-01-14" "2024-01-12"
    ⟨2024, 1, 14⟩ ⟨2024, 1, 12⟩ (by decide) rfl rfl (by decide)

end Ronimis
